import Mathlib

/-!
Verification of the Bitmap-Searcher matching engine and build helpers.

The matching engine (pixel comparison, region resolution, single- and
multi-match scanning) ships only as a compiled Cython module; the repository
holds its callers and documentation. Those definitions are therefore
modelled from the specification text. The build helpers
(`check_dependencies`, `build_for_python_version`) are embedded from
`src/build_universal.py`.
-/

/-- Modelled from the spec: one pixel's channel values. The alpha channel is
present (`some`) for 4-channel RGBA buffers and absent (`none`) for
3-channel RGB buffers. -/
structure Pixel where
  r : Nat
  g : Nat
  b : Nat
  a : Option Nat
deriving DecidableEq

/-- Modelled from the spec: PixelBuffer, an immutable row-major pixel store
with `width`, `height` and pixel access `(x, y) -> channel values`. -/
structure PixelBuffer where
  width : Nat
  height : Nat
  pix : Nat → Nat → Pixel

/-- Modelled from the spec: SearchRegion, the resolved scan rectangle. -/
structure Region where
  x : Nat
  y : Nat
  w : Nat
  h : Nat
deriving DecidableEq

/-- Clamp an integer into `[0, hi]` and return it as a natural number. -/
def clampNat (v : Int) (hi : Nat) : Nat := (min (max v 0) (hi : Int)).toNat

/-- Modelled from the spec: variance is clamped to `[0, 255]` before use. -/
def clampVariance (v : Int) : Nat := (min (max v 0) 255).toNat

/-- Modelled from the spec: RegionResolver. Defaults `x=0, y=0,
w=haystack.width-x, h=haystack.height-y`; the resolved rectangle is clipped
to haystack bounds, negative or malformed inputs are clamped into bounds
rather than rejected. -/
def resolveRegion (W H : Nat) (x0 y0 : Int) (w0 h0 : Option Int) : Region :=
  let x := clampNat x0 W
  let y := clampNat y0 H
  let w := match w0 with
    | none => W - x
    | some wv => clampNat wv (W - x)
  let h := match h0 with
    | none => H - y
    | some hv => clampNat hv (H - y)
  ⟨x, y, w, h⟩

/-- Per-channel comparison `abs(needle_c - haystack_c) <= variance`. -/
def chanOk (a b v : Nat) : Bool := decide (((a : Int) - (b : Int)).natAbs ≤ v)

/-- Alpha-channel comparison: compared only when both pixels carry an alpha
channel, otherwise vacuously true. -/
def alphaOk (na ha : Option Nat) (v : Nat) : Bool :=
  match na, ha with
  | some a1, some a2 => chanOk a1 a2 v
  | _, _ => true

/-- Modelled from the spec: PixelComparator. A needle pixel whose alpha is 0
is a wildcard and always matches; otherwise every channel (R, G, B, and
alpha when both pixels carry one) must be within the variance. -/
def pixelMatch (np hp : Pixel) (v : Nat) : Bool :=
  if np.a = some 0 then true
  else chanOk np.r hp.r v && chanOk np.g hp.g v && chanOk np.b hp.b v &&
    alphaOk np.a hp.a v

/-- Modelled from the spec: one candidate origin fully matches when every
needle pixel, scanned row-major, matches the aligned haystack pixel. -/
def matchesAt (hay needle : PixelBuffer) (ox oy v : Nat) : Bool :=
  (List.range needle.height).all fun py =>
    (List.range needle.width).all fun px =>
      pixelMatch (needle.pix px py) (hay.pix (ox + px) (oy + py)) v

/-- Modelled from the spec: the candidate origins, `oy` from `region.y` to
`region.y + region.h - needle.height` inclusive (outer) and `ox` from
`region.x` to `region.x + region.w - needle.width` inclusive (inner); empty
when the region cannot contain the needle. -/
def candidates (region : Region) (needle : PixelBuffer) : List (Nat × Nat) :=
  if needle.width ≤ region.w ∧ needle.height ≤ region.h then
    (List.range' region.y (region.h - needle.height + 1)).flatMap fun oy =>
      (List.range' region.x (region.w - needle.width + 1)).map fun ox => (ox, oy)
  else []

/-- Modelled from the spec: SingleMatchScanner — the first fully-matching
origin in row-major order, or `none`. -/
def find_bitmap_region (hay needle : PixelBuffer) (region : Region) (v : Nat) :
    Option (Nat × Nat) :=
  (candidates region needle).find? fun c => matchesAt hay needle c.1 c.2 v

/-- Modelled from the spec: every fully-matching origin, in row-major
discovery order. -/
def all_matches (hay needle : PixelBuffer) (region : Region) (v : Nat) :
    List (Nat × Nat) :=
  (candidates region needle).filter fun c => matchesAt hay needle c.1 c.2 v

/-- Modelled from the spec: AllMatchScanner — all fully-matching origins in
row-major order, truncated to `max_matches` when `max_matches >= 0`;
`max_matches < 0` means unbounded. -/
def find_all_bitmap_region (hay needle : PixelBuffer) (region : Region)
    (v : Nat) (max_matches : Int) : List (Nat × Nat) :=
  if max_matches < 0 then all_matches hay needle region v
  else (all_matches hay needle region v).take max_matches.toNat

/-- Modelled from the spec: the `find_bitmap` boundary function — resolve
the region, clamp the variance, scan for the first match. -/
def find_bitmap (hay needle : PixelBuffer) (x0 y0 : Int) (w0 h0 : Option Int)
    (variance : Int) : Option (Nat × Nat) :=
  find_bitmap_region hay needle (resolveRegion hay.width hay.height x0 y0 w0 h0)
    (clampVariance variance)

/-- Modelled from the spec: the `find_all_bitmap` boundary function. -/
def find_all_bitmap (hay needle : PixelBuffer) (x0 y0 : Int) (w0 h0 : Option Int)
    (variance : Int) (max_matches : Int) : List (Nat × Nat) :=
  find_all_bitmap_region hay needle
    (resolveRegion hay.width hay.height x0 y0 w0 h0)
    (clampVariance variance) max_matches

/-- A candidate origin within the region, as the spec's loop bounds state
them: the needle fits, `region.x ≤ ox ≤ region.x + region.w - needle.width`
and `region.y ≤ oy ≤ region.y + region.h - needle.height`. -/
def validOrigin (region : Region) (needle : PixelBuffer) (c : Nat × Nat) : Prop :=
  needle.width ≤ region.w ∧ needle.height ≤ region.h ∧
  region.x ≤ c.1 ∧ c.1 ≤ region.x + (region.w - needle.width) ∧
  region.y ≤ c.2 ∧ c.2 ≤ region.y + (region.h - needle.height)

/-- Strict row-major order on origins: earlier row, or same row and
earlier column. -/
def rowMajorLt (c d : Nat × Nat) : Prop :=
  c.2 < d.2 ∨ (c.2 = d.2 ∧ c.1 < d.1)

/-- The three packages `check_dependencies` in `build_universal.py` probes,
in source order. -/
def required_packages : List String := ["setuptools", "cython", "numpy"]

/-- The loop body of `check_dependencies`: try each package in order; on the
first failing import, record the warning for that package and stop with
`false`. The second component lists the packages a warning was printed
for. -/
def check_deps_loop (importOk : String → Bool) : List String → Bool × List String
  | [] => (true, [])
  | p :: ps => if importOk p then check_deps_loop importOk ps else (false, [p])

/-- `check_dependencies` from `build_universal.py`, with the interpreter
abstracted as the predicate `importOk` telling whether
`python_exe -c "import p"` succeeds. Returns the result and the list of
packages warned about. -/
def check_dependencies (importOk : String → Bool) : Bool × List String :=
  check_deps_loop importOk required_packages

/-- The literal `"."` used by `version.replace(".", "")`. -/
def dotStr : String := "."

/-- The empty replacement string of `version.replace(".", "")`. -/
def emptyStr : String := ""

/-- `version_tag` from `build_for_python_version`:
`f"cpython-{version.replace('.', '')}"`. -/
def version_tag (version : String) : String :=
  "cpython-" ++ String.replace version dotStr emptyStr

/-- Helper for `strContains`: does `t` occur as a contiguous run of `l`? -/
def containsAux (t : List Char) : List Char → Bool
  | [] => t.isEmpty
  | c :: l => t.isPrefixOf (c :: l) || containsAux t l

/-- Python's `tag in name` substring test on strings. -/
def strContains (tag name : String) : Bool := containsAux tag.toList name.toList

/-- `build_for_python_version` from `build_universal.py`, abstracted over
the effects: `setupOk` is whether the `setup_universal.py` subprocess
succeeded, `soFiles` the names the glob `bitmap_matcher*.so` found in the
current directory. Returns the function's result and the list of source
files copied into `dist/`. -/
def build_for_python_version (setupOk : Bool) (version : String)
    (soFiles : List String) : Bool × List String :=
  if setupOk then
    let matching := soFiles.filter fun name => strContains (version_tag version) name
    if matching.isEmpty then (false, []) else (true, matching)
  else (false, [])

/-- `clampNat` lands in `[0, hi]`. -/
lemma clampNat_le (v : Int) (hi : Nat) : clampNat v hi ≤ hi :=
  Int.toNat_le.mpr (min_le_right _ _)

/-- Claim C7: for every haystack size and every caller-supplied optional
`(x, y, w, h)`, including negative or malformed values, the resolved region
satisfies `0 ≤ x`, `0 ≤ y`, `x + w ≤ haystack.width` and
`y + h ≤ haystack.height`: the scan rectangle never extends past the
buffer. -/
theorem resolveRegion_within_bounds_c7 (W H : Nat) (x0 y0 : Int)
    (w0 h0 : Option Int) :
    0 ≤ (resolveRegion W H x0 y0 w0 h0).x ∧
    0 ≤ (resolveRegion W H x0 y0 w0 h0).y ∧
    (resolveRegion W H x0 y0 w0 h0).x + (resolveRegion W H x0 y0 w0 h0).w ≤ W ∧
    (resolveRegion W H x0 y0 w0 h0).y + (resolveRegion W H x0 y0 w0 h0).h ≤ H := by
  have hx := clampNat_le x0 W
  have hy := clampNat_le y0 H
  refine ⟨Nat.zero_le _, Nat.zero_le _, ?_, ?_⟩
  · unfold resolveRegion
    cases w0 with
    | none => simp only; omega
    | some wv =>
      simp only
      have := clampNat_le wv (W - clampNat x0 W)
      omega
  · unfold resolveRegion
    cases h0 with
    | none => simp only; omega
    | some hv =>
      simp only
      have := clampNat_le hv (H - clampNat y0 H)
      omega

/-- The loop of `check_dependencies` succeeds exactly when every package in
the list imports, and warns exactly about the first failing package. -/
lemma check_deps_loop_spec (importOk : String → Bool) (l : List String) :
    ((check_deps_loop importOk l).1 = true ↔ ∀ p ∈ l, importOk p = true) ∧
    (check_deps_loop importOk l).2 =
      (l.find? fun p => !importOk p).toList := by
  induction l with
  | nil => simp [check_deps_loop]
  | cons p ps ih =>
    by_cases hp : importOk p = true
    · simp [check_deps_loop, hp, List.find?_cons, ih.1, ih.2]
    · simp only [Bool.not_eq_true] at hp
      simp [check_deps_loop, hp, List.find?_cons]

/-- Claim C9: for every interpreter, `check_dependencies` returns `True`
exactly when each of `setuptools`, `cython`, `numpy` imports successfully;
on the first package whose import fails it prints one warning (for that
package only) and returns `False`, leaving later packages unchecked. -/
theorem check_dependencies_spec_c9 (importOk : String → Bool) :
    ((check_dependencies importOk).1 = true ↔
      ∀ p ∈ required_packages, importOk p = true) ∧
    (check_dependencies importOk).2 =
      (required_packages.find? fun p => !importOk p).toList := by
  exact check_deps_loop_spec importOk required_packages

/-- Claim C10: `build_for_python_version` returns `False` when the setup
subprocess fails, and also when no discovered `bitmap_matcher*.so` file
contains the tag `cpython-` followed by the version with the dot removed;
every file copied into `dist/` is one of the discovered files and carries
that tag, so extensions built for other interpreter versions are never
published. -/
theorem build_for_python_version_spec_c10 (setupOk : Bool) (version : String)
    (soFiles : List String) :
    build_for_python_version false version soFiles = (false, []) ∧
    ((build_for_python_version setupOk version soFiles).1 = false ↔
      setupOk = false ∨
        ∀ f ∈ soFiles, strContains (version_tag version) f = false) ∧
    ∀ f ∈ (build_for_python_version setupOk version soFiles).2,
      f ∈ soFiles ∧ strContains (version_tag version) f = true := by
  refine ⟨rfl, ?_, ?_⟩
  · cases setupOk with
    | false => simp [build_for_python_version]
    | true =>
      simp only [build_for_python_version, if_true, Bool.true_eq_false, false_or]
      by_cases hemp :
          (soFiles.filter fun name => strContains (version_tag version) name) = []
      · rw [if_pos (by simp [hemp])]
        have hall := List.filter_eq_nil_iff.mp hemp
        constructor
        · intro _ f hf
          have := hall f hf
          simpa using this
        · intro _
          rfl
      · rw [if_neg (by simpa [List.isEmpty_iff] using hemp)]
        constructor
        · intro h
          exact absurd h (by simp)
        · intro hall
          exact absurd
            (List.filter_eq_nil_iff.mpr fun a ha => by simp [hall a ha]) hemp
  · cases setupOk with
    | false => simp [build_for_python_version]
    | true =>
      simp only [build_for_python_version, if_true]
      by_cases hemp :
          (soFiles.filter fun name => strContains (version_tag version) name) = []
      · rw [if_pos (by simp [hemp])]
        simp
      · rw [if_neg (by simpa [List.isEmpty_iff] using hemp)]
        intro f hf
        have := List.mem_filter.mp hf
        exact ⟨this.1, this.2⟩

/-- Membership in the candidate list is exactly the spec's loop bounds. -/
lemma mem_candidates {region : Region} {needle : PixelBuffer} {c : Nat × Nat} :
    c ∈ candidates region needle ↔ validOrigin region needle c := by
  unfold candidates validOrigin
  split
  next hfit =>
    obtain ⟨hw, hh⟩ := hfit
    simp only [List.mem_flatMap, List.mem_map, List.mem_range'_1]
    constructor
    · rintro ⟨oy, ⟨hy1, hy2⟩, ox, ⟨hx1, hx2⟩, rfl⟩
      exact ⟨hw, hh, hx1, by omega, hy1, by omega⟩
    · rintro ⟨_, _, hx1, hx2, hy1, hy2⟩
      exact ⟨c.2, ⟨hy1, by omega⟩, c.1, ⟨hx1, by omega⟩, rfl⟩
  next hfit =>
    simp only [List.not_mem_nil, false_iff]
    intro hv
    exact hfit ⟨hv.1, hv.2.1⟩

/-- Flattening a list of pairwise-ordered blocks whose blocks are mutually
ordered yields a pairwise-ordered list. -/
lemma pairwise_flatMap_of {α β : Type} {R : β → β → Prop} {f : α → List β} :
    ∀ l : List α, (∀ a ∈ l, (f a).Pairwise R) →
      l.Pairwise (fun a b => ∀ x ∈ f a, ∀ y ∈ f b, R x y) →
      (l.flatMap f).Pairwise R
  | [], _, _ => by simp
  | a :: l, h1, h2 => by
    rw [List.flatMap_cons, List.pairwise_append]
    rw [List.pairwise_cons] at h2
    refine ⟨h1 a (List.mem_cons_self a l),
      pairwise_flatMap_of l (fun b hb => h1 b (List.mem_cons_of_mem _ hb)) h2.2,
      ?_⟩
    intro x hx y hy
    rw [List.mem_flatMap] at hy
    obtain ⟨b, hb, hyb⟩ := hy
    exact h2.1 b hb x hx y hyb

/-- The candidate origins are listed in strictly increasing row-major
order: `oy` in the outer loop, `ox` in the inner loop. -/
lemma candidates_pairwise (region : Region) (needle : PixelBuffer) :
    (candidates region needle).Pairwise rowMajorLt := by
  unfold candidates
  split
  · apply pairwise_flatMap_of
    · intro oy _
      rw [List.pairwise_map]
      refine (List.pairwise_lt_range' _ _).imp ?_
      intro a b hab
      exact Or.inr ⟨rfl, hab⟩
    · refine (List.pairwise_lt_range' _ _).imp ?_
      intro a b hab x hx y hy
      rw [List.mem_map] at hx hy
      obtain ⟨ox, _, rfl⟩ := hx
      obtain ⟨ox2, _, rfl⟩ := hy
      exact Or.inl hab
  · exact List.Pairwise.nil

/-- In a pairwise-ordered list, `find?` returns an element no later (in the
order) than any other element satisfying the predicate. -/
lemma find_first_of_pairwise {α : Type} {R : α → α → Prop} {p : α → Bool} :
    ∀ {l : List α} {a : α}, l.Pairwise R → l.find? p = some a →
      ∀ b ∈ l, p b = true → a = b ∨ R a b := by
  intro l
  induction l with
  | nil =>
    intro a _ h
    simp at h
  | cons x xs ih =>
    intro a hpw hfind b hb hpb
    rw [List.pairwise_cons] at hpw
    cases hpx : p x with
    | true =>
      simp only [List.find?_cons, hpx, Option.some.injEq] at hfind
      subst hfind
      rcases List.mem_cons.mp hb with rfl | hb2
      · exact Or.inl rfl
      · exact Or.inr (hpw.1 b hb2)
    | false =>
      simp only [List.find?_cons, hpx] at hfind
      rcases List.mem_cons.mp hb with rfl | hb2
      · rw [hpb] at hpx
        cases hpx
      · exact ih hpw.2 hfind b hb2 hpb

/-- Claim C1: `find_bitmap` scans candidate origins with `oy` from
`region.y` to `region.y + region.h - needle.height` inclusive (outer) and
`ox` from `region.x` to `region.x + region.w - needle.width` inclusive
(inner), returns the earliest fully-matching origin in row-major `(y, x)`
order, and returns null exactly when no candidate origin fully matches. -/
theorem find_bitmap_first_match_c1 (hay needle : PixelBuffer) (region : Region)
    (v : Nat) :
    (find_bitmap_region hay needle region v = none ↔
      ∀ c, validOrigin region needle c → matchesAt hay needle c.1 c.2 v = false) ∧
    ∀ c, find_bitmap_region hay needle region v = some c →
      validOrigin region needle c ∧ matchesAt hay needle c.1 c.2 v = true ∧
      ∀ d, validOrigin region needle d → matchesAt hay needle d.1 d.2 v = true →
        c = d ∨ rowMajorLt c d := by
  constructor
  · unfold find_bitmap_region
    rw [List.find?_eq_none]
    constructor
    · intro h c hc
      have := h c (mem_candidates.mpr hc)
      simpa using this
    · intro h c hc
      have := h c (mem_candidates.mp hc)
      simp [this]
  · intro c hc
    unfold find_bitmap_region at hc
    have hp := List.find?_some hc
    refine ⟨mem_candidates.mp (List.mem_of_find?_eq_some hc), hp, ?_⟩
    intro d hd hmd
    exact find_first_of_pairwise (candidates_pairwise region needle) hc d
      (mem_candidates.mpr hd) hmd

/-- Claim C2: with unbounded `max_matches`, `find_all_bitmap` returns
exactly the origins at which every needle pixel matches — each such origin
appears, overlapping placements included, none deduplicated — and the
sequence is strictly increasing in row-major discovery order. -/
theorem find_all_bitmap_complete_c2 (hay needle : PixelBuffer) (region : Region)
    (v : Nat) :
    (∀ c, c ∈ find_all_bitmap_region hay needle region v (-1) ↔
      validOrigin region needle c ∧ matchesAt hay needle c.1 c.2 v = true) ∧
    (find_all_bitmap_region hay needle region v (-1)).Pairwise rowMajorLt := by
  have hneg : ((-1 : Int) < 0) := by norm_num
  constructor
  · intro c
    unfold find_all_bitmap_region
    rw [if_pos hneg]
    unfold all_matches
    rw [List.mem_filter, mem_candidates]
  · unfold find_all_bitmap_region
    rw [if_pos hneg]
    exact (candidates_pairwise region needle).filter _

/-- Widening the variance preserves a channel match. -/
lemma chanOk_mono {a b v v' : Nat} (hv : v ≤ v') (h : chanOk a b v = true) :
    chanOk a b v' = true := by
  simp only [chanOk, decide_eq_true_eq] at h ⊢
  omega

/-- Widening the variance preserves an alpha-channel match. -/
lemma alphaOk_mono {na ha : Option Nat} {v v' : Nat} (hv : v ≤ v')
    (h : alphaOk na ha v = true) : alphaOk na ha v' = true := by
  cases na with
  | none => rfl
  | some a1 =>
    cases ha with
    | none => rfl
    | some a2 => exact chanOk_mono hv h

/-- A fully-transparent needle pixel matches any haystack pixel. -/
lemma pixelMatch_wildcard (np hp : Pixel) (v : Nat) (h : np.a = some 0) :
    pixelMatch np hp v = true := by
  unfold pixelMatch
  rw [if_pos h]

/-- Widening the variance preserves a pixel match. -/
lemma pixelMatch_mono {np hp : Pixel} {v v' : Nat} (hv : v ≤ v')
    (h : pixelMatch np hp v = true) : pixelMatch np hp v' = true := by
  unfold pixelMatch at h ⊢
  by_cases h0 : np.a = some 0
  · rw [if_pos h0]
  · rw [if_neg h0] at h ⊢
    simp only [Bool.and_eq_true] at h ⊢
    exact ⟨⟨⟨chanOk_mono hv h.1.1.1, chanOk_mono hv h.1.1.2⟩,
      chanOk_mono hv h.1.2⟩, alphaOk_mono hv h.2⟩

/-- Widening the variance preserves a full-origin match. -/
lemma matchesAt_mono {hay needle : PixelBuffer} {ox oy v v' : Nat} (hv : v ≤ v')
    (h : matchesAt hay needle ox oy v = true) :
    matchesAt hay needle ox oy v' = true := by
  simp only [matchesAt, List.all_eq_true] at h ⊢
  intro py hpy px hpx
  exact pixelMatch_mono hv (h py hpy px hpx)

/-- The comparator accepts exactly when the pixel is a wildcard or every
compared channel differs by at most the variance. -/
lemma pixelMatch_iff (np hp : Pixel) (v : Nat) :
    pixelMatch np hp v = true ↔
      np.a = some 0 ∨
      (((np.r : Int) - hp.r).natAbs ≤ v ∧ ((np.g : Int) - hp.g).natAbs ≤ v ∧
       ((np.b : Int) - hp.b).natAbs ≤ v ∧
       ∀ na ha, np.a = some na → hp.a = some ha →
         ((na : Int) - ha).natAbs ≤ v) := by
  unfold pixelMatch
  by_cases h0 : np.a = some 0
  · simp [h0]
  · rw [if_neg h0]
    simp only [Bool.and_eq_true, chanOk, decide_eq_true_eq]
    constructor
    · rintro ⟨⟨⟨h1, h2⟩, h3⟩, h4⟩
      refine Or.inr ⟨h1, h2, h3, ?_⟩
      intro na ha hna hha
      rw [hna, hha] at h4
      simpa [alphaOk, chanOk] using h4
    · rintro (h | ⟨h1, h2, h3, h4⟩)
      · exact absurd h h0
      · refine ⟨⟨⟨h1, h2⟩, h3⟩, ?_⟩
        cases hna : np.a with
        | none => rfl
        | some na =>
          cases hha : hp.a with
          | none => rfl
          | some ha => simpa [alphaOk, chanOk] using h4 na ha hna hha

/-- Claim C4: the per-pixel comparator accepts exactly when the pixel is a
wildcard or every compared channel satisfies
`abs(needle_c - haystack_c) <= variance`, and a full match at an origin with
variance `v` persists for every variance `v' ≥ v`: tolerance only widens
acceptance. -/
theorem variance_monotone_c4 (hay needle : PixelBuffer) (region : Region)
    (np hp : Pixel) (ox oy v v' : Nat) (hv : v ≤ v') :
    (matchesAt hay needle ox oy v = true → matchesAt hay needle ox oy v' = true) ∧
    (pixelMatch np hp v = true ↔
      np.a = some 0 ∨
      (((np.r : Int) - hp.r).natAbs ≤ v ∧ ((np.g : Int) - hp.g).natAbs ≤ v ∧
       ((np.b : Int) - hp.b).natAbs ≤ v ∧
       ∀ na ha, np.a = some na → hp.a = some ha →
         ((na : Int) - ha).natAbs ≤ v)) :=
  ⟨matchesAt_mono hv, pixelMatch_iff np hp v⟩

/-- An opaque grey test pixel. -/
def pxA : Pixel := ⟨10, 20, 30, some 255⟩

/-- A second opaque test pixel. -/
def pxB : Pixel := ⟨1, 2, 3, some 255⟩

/-- A 4×3 haystack filled with `pxA`. -/
def bufH : PixelBuffer := ⟨4, 3, fun _ _ => pxA⟩

/-- A 2×2 needle filled with `pxA`. -/
def bufN : PixelBuffer := ⟨2, 2, fun _ _ => pxA⟩

/-- The full region of `bufH`. -/
def regFull : Region := ⟨0, 0, 4, 3⟩

/-- A 1×1 region, too small for `bufN`. -/
def regSmall : Region := ⟨0, 0, 1, 1⟩

/-- A 2×2 needle with a fully-transparent top-left pixel. -/
def bufN1 : PixelBuffer :=
  ⟨2, 2, fun px py => if px = 0 ∧ py = 0 then ⟨10, 20, 30, some 0⟩ else pxB⟩

/-- `bufN1` with different RGB values under the transparent pixel. -/
def bufN2 : PixelBuffer :=
  ⟨2, 2, fun px py => if px = 0 ∧ py = 0 then ⟨90, 80, 70, some 0⟩ else pxB⟩

/-- A 4×3 haystack filled with `pxB`, so `bufN1` and `bufN2` match in it. -/
def bufH2 : PixelBuffer := ⟨4, 3, fun _ _ => pxB⟩

theorem variance_monotone_c4_witness :
    (0 : Nat) ≤ 3 ∧
    ((matchesAt bufH bufN 0 0 0 = true → matchesAt bufH bufN 0 0 3 = true) ∧
     (pixelMatch pxA pxA 0 = true ↔
       pxA.a = some 0 ∨
       (((pxA.r : Int) - pxA.r).natAbs ≤ 0 ∧ ((pxA.g : Int) - pxA.g).natAbs ≤ 0 ∧
        ((pxA.b : Int) - pxA.b).natAbs ≤ 0 ∧
        ∀ na ha, pxA.a = some na → pxA.a = some ha →
          ((na : Int) - ha).natAbs ≤ 0))) :=
  ⟨by decide, variance_monotone_c4 bufH bufN regFull pxA pxA 0 0 0 3 (by decide)⟩

/-- Bool-valued `all` over a list only depends on the function's values on
the list's members. -/
lemma all_congr_list {α : Type} {f g : α → Bool} :
    ∀ {l : List α}, (∀ a ∈ l, f a = g a) → l.all f = l.all g
  | [], _ => rfl
  | a :: l, h => by
    rw [List.all_cons, List.all_cons, h a (List.mem_cons_self a l),
      all_congr_list fun b hb => h b (List.mem_cons_of_mem a hb)]

/-- Two needles agreeing on alpha everywhere and on whole pixels wherever
not fully transparent produce the same full-origin match results. -/
lemma matchesAt_congr (hay n1 n2 : PixelBuffer)
    (hw : n1.width = n2.width) (hh : n1.height = n2.height)
    (ha : ∀ px < n1.width, ∀ py < n1.height,
      (n1.pix px py).a = (n2.pix px py).a)
    (hrgb : ∀ px < n1.width, ∀ py < n1.height,
      (n1.pix px py).a ≠ some 0 → n1.pix px py = n2.pix px py)
    (ox oy v : Nat) : matchesAt hay n1 ox oy v = matchesAt hay n2 ox oy v := by
  unfold matchesAt
  rw [← hw, ← hh]
  apply all_congr_list
  intro py hpy
  apply all_congr_list
  intro px hpx
  rw [List.mem_range] at hpy hpx
  by_cases h0 : (n1.pix px py).a = some 0
  · rw [pixelMatch_wildcard _ _ _ h0, pixelMatch_wildcard]
    rw [← ha px hpx py hpy]
    exact h0
  · rw [hrgb px hpx py hpy h0]

/-- Claim C3: a needle pixel with alpha 0 matches every haystack pixel
regardless of channel values and variance; consequently two needles
differing only in the R, G, B values of fully-transparent pixels produce
identical `find_bitmap` and `find_all_bitmap` outputs on every haystack,
region, variance and match cap. -/
theorem wildcard_invariance_c3 (hay n1 n2 : PixelBuffer) (region : Region)
    (v : Nat) (mm : Int)
    (hw : n1.width = n2.width) (hh : n1.height = n2.height)
    (ha : ∀ px < n1.width, ∀ py < n1.height,
      (n1.pix px py).a = (n2.pix px py).a)
    (hrgb : ∀ px < n1.width, ∀ py < n1.height,
      (n1.pix px py).a ≠ some 0 → n1.pix px py = n2.pix px py) :
    (∀ np hp : Pixel, np.a = some 0 → pixelMatch np hp v = true) ∧
    find_bitmap_region hay n1 region v = find_bitmap_region hay n2 region v ∧
    find_all_bitmap_region hay n1 region v mm =
      find_all_bitmap_region hay n2 region v mm := by
  have hfun : (fun c : Nat × Nat => matchesAt hay n1 c.1 c.2 v) =
      (fun c => matchesAt hay n2 c.1 c.2 v) :=
    funext fun c => matchesAt_congr hay n1 n2 hw hh ha hrgb c.1 c.2 v
  have hcand : candidates region n1 = candidates region n2 := by
    unfold candidates
    rw [hw, hh]
  refine ⟨fun np hp h0 => pixelMatch_wildcard np hp v h0, ?_, ?_⟩
  · unfold find_bitmap_region
    rw [hcand, hfun]
  · unfold find_all_bitmap_region all_matches
    rw [hcand, hfun]

theorem wildcard_invariance_c3_witness :
    bufN1.width = bufN2.width ∧
    find_bitmap_region bufH2 bufN1 regFull 0 = find_bitmap_region bufH2 bufN2 regFull 0 ∧
    find_all_bitmap_region bufH2 bufN1 regFull 0 (-1) =
      find_all_bitmap_region bufH2 bufN2 regFull 0 (-1) :=
  ⟨rfl, (wildcard_invariance_c3 bufH2 bufN1 bufN2 regFull 0 (-1) rfl rfl
    (by decide) (by decide)).2⟩

/-- Claim C5: with `max_matches = m ≥ 0` the result is the first
`min(m, k)` matching origins — the length-`min(m, k)` prefix of the
unbounded enumeration — and with `max_matches < 0` the enumeration is
unbounded. -/
theorem max_matches_cap_c5 (hay needle : PixelBuffer) (region : Region)
    (v : Nat) (m : Int) :
    (0 ≤ m →
      find_all_bitmap_region hay needle region v m =
        (find_all_bitmap_region hay needle region v (-1)).take m.toNat ∧
      (find_all_bitmap_region hay needle region v m).length =
        min m.toNat (find_all_bitmap_region hay needle region v (-1)).length) ∧
    (m < 0 →
      find_all_bitmap_region hay needle region v m =
        find_all_bitmap_region hay needle region v (-1)) := by
  have hneg : ((-1 : Int) < 0) := by norm_num
  constructor
  · intro hm
    have hnotlt : ¬ m < 0 := by omega
    unfold find_all_bitmap_region
    rw [if_neg hnotlt, if_pos hneg]
    exact ⟨rfl, by simp [List.length_take]⟩
  · intro hm
    unfold find_all_bitmap_region
    rw [if_pos hm, if_pos hneg]

/-- Both scanners are empty on a region that cannot contain the needle. -/
lemma scan_empty_of_too_small (hay needle : PixelBuffer) (region : Region)
    (v : Nat) (mm : Int)
    (h : region.w < needle.width ∨ region.h < needle.height) :
    find_bitmap_region hay needle region v = none ∧
    find_all_bitmap_region hay needle region v mm = [] := by
  have hcand : candidates region needle = [] := by
    unfold candidates
    rw [if_neg]
    intro hfit
    omega
  constructor
  · unfold find_bitmap_region
    rw [hcand]
    rfl
  · unfold find_all_bitmap_region all_matches
    rw [hcand]
    split <;> simp

/-- Claim C6: whenever the resolved region is too small to contain the
needle, `find_bitmap` returns null and `find_all_bitmap` returns the empty
sequence, for every pixel content, and no error is raised (the scanners are
total functions). -/
theorem too_small_region_c6 (hay needle : PixelBuffer) (region : Region)
    (v : Nat) (mm : Int)
    (h : region.w < needle.width ∨ region.h < needle.height) :
    find_bitmap_region hay needle region v = none ∧
    find_all_bitmap_region hay needle region v mm = [] :=
  scan_empty_of_too_small hay needle region v mm h

theorem too_small_region_c6_witness :
    (regSmall.w < bufN.width ∨ regSmall.h < bufN.height) ∧
    find_bitmap_region bufH bufN regSmall 0 = none ∧
    find_all_bitmap_region bufH bufN regSmall 0 (-1) = [] :=
  ⟨Or.inl (by decide),
    too_small_region_c6 bufH bufN regSmall 0 (-1) (Or.inl (by decide))⟩

/-- Claim C8: the boundary functions are total — "no match" and "invalid
region" are reported as `none` or `[]` — and a variance outside `[0, 255]`
is silently clamped into `[0, 255]` before use: the result equals the
result at the clamped variance. -/
theorem never_raises_clamp_c8 (hay needle : PixelBuffer) (x0 y0 : Int)
    (w0 h0 : Option Int) (v mm : Int) :
    clampVariance v ≤ 255 ∧
    find_bitmap hay needle x0 y0 w0 h0 v =
      find_bitmap hay needle x0 y0 w0 h0 (clampVariance v) ∧
    find_all_bitmap hay needle x0 y0 w0 h0 v mm =
      find_all_bitmap hay needle x0 y0 w0 h0 (clampVariance v) mm ∧
    ((resolveRegion hay.width hay.height x0 y0 w0 h0).w < needle.width ∨
        (resolveRegion hay.width hay.height x0 y0 w0 h0).h < needle.height →
      find_bitmap hay needle x0 y0 w0 h0 v = none ∧
      find_all_bitmap hay needle x0 y0 w0 h0 v mm = []) := by
  have hcl : clampVariance ((clampVariance v : Nat) : Int) = clampVariance v := by
    unfold clampVariance
    omega
  refine ⟨?_, ?_, ?_, ?_⟩
  · unfold clampVariance
    omega
  · unfold find_bitmap
    rw [hcl]
  · unfold find_all_bitmap
    rw [hcl]
  · intro h
    exact scan_empty_of_too_small hay needle _ _ mm h
